import Mathlib

/-!
Verification of the geographic classification subsystem of a fitness-recap
dashboard: a point-in-polygon country classifier (`getCountryFromPoint` in
`src/utils/geo.ts`) and a visited-country aggregator with a coordinate-rounding
cache (`useVisitedCountries` in `src/hooks/useVisitedCountries.ts`).

Modelling conventions:
* JavaScript numbers are modelled as exact rationals `ℚ`; the JS value
  `Infinity` used as the initial minimum distance is modelled by `⊤` in
  `WithTop ℚ`.
* A JS runtime `TypeError` (thrown when `coordinates[0]` is `undefined` and is
  then used as an array) is modelled by `Except.error ()`; normal returns are
  `Except.ok`.
* `null`/`undefined` results are modelled by `Option`.
* JS `Set` (insertion-ordered, deduplicating) and `Map` (insertion-ordered,
  last write wins) are modelled by lists and association lists with the
  corresponding insertion operations.
-/

set_option linter.unusedVariables false

/-- A geographic point `[lng, lat]`, as used inside the classifier. -/
abbrev GeoPoint : Type := ℚ × ℚ

/-- A ring: a list of `[lng, lat]` points (`[number, number][]` in the source). -/
abbrev GeoRing : Type := List GeoPoint

/-- The `geometry` field of a GeoJSON feature: either a Polygon
(`coordinates : Ring[]`, outer ring first, then holes) or a MultiPolygon
(`coordinates : Ring[][]`). -/
inductive GeoJSONGeometry : Type where
  | polygon (coordinates : List GeoRing)
  | multiPolygon (coordinates : List (List GeoRing))
deriving DecidableEq

/-- The `properties` object of a GeoJSON feature; only the country-code
property is consulted by this subsystem (`name` is unused and omitted). -/
structure GeoJSONProperties : Type where
  ISO3166_1_Alpha_2 : String
deriving DecidableEq

/-- A GeoJSON feature. `geometry` is `Option` because the source guards
`if (!geometry) continue` against null geometry at runtime. -/
structure GeoJSONFeature : Type where
  properties : GeoJSONProperties
  geometry : Option GeoJSONGeometry
deriving DecidableEq

/-- The boundary collection: only the `features` array is consulted. -/
structure GeoJSONCollection : Type where
  features : List GeoJSONFeature
deriving DecidableEq

/-- An activity record; only the fields used by the aggregator are modelled.
`start_latlng` is `[latitude, longitude]` when present; it is modelled as an
arbitrary-length list because the source checks `start_latlng.length !== 2`. -/
structure Activity : Type where
  id : ℚ
  start_latlng : Option (List ℚ)
deriving DecidableEq

/-- `distToSegmentSquared(p, v, w)` from `src/utils/geo.ts`: squared Euclidean
distance from `p` to segment `[v, w]`, via the projection parameter `t`
clamped to `[0, 1]`. -/
def distToSegmentSquared (p v w : GeoPoint) : ℚ :=
  let l2 := (v.1 - w.1) ^ 2 + (v.2 - w.2) ^ 2
  if l2 = 0 then (p.1 - v.1) ^ 2 + (p.2 - v.2) ^ 2
  else
    let t := ((p.1 - v.1) * (w.1 - v.1) + (p.2 - v.2) * (w.2 - v.2)) / l2
    let t := max 0 (min 1 t)
    (p.1 - (v.1 + t * (w.1 - v.1))) ^ 2 + (p.2 - (v.2 + t * (w.2 - v.2))) ^ 2

/-- The consecutive pairs `(ring[i], ring[i+1])` for `0 ≤ i < ring.length - 1`,
exactly the segments visited by the loop in `getMinDistToRingSquared`. -/
def consecPairs (ring : GeoRing) : List (GeoPoint × GeoPoint) :=
  ring.zip ring.tail

/-- `getMinDistToRingSquared(point, ring)` from `src/utils/geo.ts`:
`minDist2` starts at `Infinity` (`⊤`) and is lowered over the segments
`(ring[i], ring[i+1])`, `i = 0 .. ring.length - 2`. Note the loop does NOT
include a closing segment from the last point back to the first. -/
def getMinDistToRingSquared (point : GeoPoint) (ring : GeoRing) : WithTop ℚ :=
  (consecPairs ring).foldl
    (fun minDist2 vw =>
      let d2 : WithTop ℚ := (distToSegmentSquared point vw.1 vw.2 : ℚ)
      if d2 < minDist2 then d2 else minDist2)
    ⊤

/-- One iteration of the `isPointInPoly` loop: the edge with endpoints
`vi = vs[i]` and `vj = vs[j]` toggles `inside` iff
`yi > y !== yj > y && x < (xj - xi) * (y - yi) / (yj - yi) + xi`.
(When `yi = yj` the first conjunct is false, so the division — which JS would
short-circuit past — is irrelevant; `ℚ` division by zero is total.) -/
def edgeCrosses (x y : ℚ) (vi vj : GeoPoint) : Bool :=
  let xi := vi.1; let yi := vi.2
  let xj := vj.1; let yj := vj.2
  (decide (yi > y) != decide (yj > y)) && decide (x < (xj - xi) * (y - yi) / (yj - yi) + xi)

/-- The list `vs[j]` of previous-vertex partners in the loop
`for (i = 0, j = vs.length - 1; i < vs.length; j = i++)`: for `i = 0` the
partner is the last vertex, afterwards the vertex before `i`. -/
def prevCyclic (vs : GeoRing) : GeoRing :=
  match vs.getLast? with
  | none => []
  | some last => last :: vs.dropLast

/-- `isPointInPoly(point, vs)` from `src/utils/geo.ts`: ray-casting parity,
folding the edge-crossing toggle over the pairs `(vs[i], vs[j])` in loop
order. -/
def isPointInPoly (point : GeoPoint) (vs : GeoRing) : Bool :=
  let x := point.1; let y := point.2
  (vs.zip (prevCyclic vs)).foldl
    (fun inside vivj => if edgeCrosses x y vivj.1 vivj.2 then !inside else inside)
    false

/-- JS `coordinates[0]` followed by use of the result as an array: yields the
head ring, or throws a `TypeError` (modelled `.error ()`) when the list is
empty and the access produces `undefined`. -/
def ringAt0 {α : Type} (coordinates : List α) : Except Unit α :=
  match coordinates with
  | [] => .error ()
  | r :: _ => .ok r

/-- Pass-1 inner loop over a MultiPolygon's constituent polygons: test the
point against each polygon's outer ring `polygon[0]`, returning at the first
hit. -/
def pass1Multi (point : GeoPoint) : List (List GeoRing) → Except Unit Bool
  | [] => .ok false
  | poly :: rest => do
    let outerRing ← ringAt0 poly
    if isPointInPoly point outerRing then .ok true else pass1Multi point rest

/-- Pass 1 of `getCountryFromPoint`: iterate features in collection order,
skip null geometry, test the outer ring(s), and return the first feature's
country code on a hit (`return feature.properties["ISO3166-1-Alpha-2"]`). -/
def pass1Exact (point : GeoPoint) : List GeoJSONFeature → Except Unit (Option String)
  | [] => .ok none
  | feature :: rest =>
    match feature.geometry with
    | none => pass1Exact point rest
    | some (.polygon coordinates) => do
      let outerRing ← ringAt0 coordinates
      if isPointInPoly point outerRing then .ok (some feature.properties.ISO3166_1_Alpha_2)
      else pass1Exact point rest
    | some (.multiPolygon coordinates) => do
      let hit ← pass1Multi point coordinates
      if hit then .ok (some feature.properties.ISO3166_1_Alpha_2)
      else pass1Exact point rest

/-- Pass-2 inner loop over a MultiPolygon: `distSq` starts at `Infinity` and
is lowered to the minimum outer-ring distance over the constituent polygons. -/
def pass2Multi (point : GeoPoint) : List (List GeoRing) → WithTop ℚ → Except Unit (WithTop ℚ)
  | [], distSq => .ok distSq
  | poly :: rest, distSq => do
    let outerRing ← ringAt0 poly
    let d := getMinDistToRingSquared point outerRing
    if d < distSq then pass2Multi point rest d else pass2Multi point rest distSq

/-- The per-feature `distSq` computed in the Pass-2 loop body (starting from
`Infinity`, per geometry kind). -/
def featureDistSq (point : GeoPoint) (geometry : GeoJSONGeometry) : Except Unit (WithTop ℚ) :=
  match geometry with
  | .polygon coordinates => do
    let outerRing ← ringAt0 coordinates
    .ok (getMinDistToRingSquared point outerRing)
  | .multiPolygon coordinates => pass2Multi point coordinates ⊤

/-- `THRESHOLD_SQ = 0.1 * 0.1` from the source, as a `WithTop ℚ`. -/
def thresholdSq : WithTop ℚ := ((1 / 10 : ℚ) * (1 / 10 : ℚ) : ℚ)

/-- Pass 2 of `getCountryFromPoint`: fuzzy nearest-boundary match. The
accumulator carries `bestCandidate` and `minDistanceSq`; a feature replaces
the candidate iff `distSq < THRESHOLD_SQ && distSq < minDistanceSq`. -/
def pass2Fuzzy (point : GeoPoint) :
    List GeoJSONFeature → Option String → WithTop ℚ → Except Unit (Option String)
  | [], bestCandidate, _ => .ok bestCandidate
  | feature :: rest, bestCandidate, minDistanceSq =>
    match feature.geometry with
    | none => pass2Fuzzy point rest bestCandidate minDistanceSq
    | some geometry => do
      let distSq ← featureDistSq point geometry
      if distSq < thresholdSq ∧ distSq < minDistanceSq then
        pass2Fuzzy point rest (some feature.properties.ISO3166_1_Alpha_2) distSq
      else
        pass2Fuzzy point rest bestCandidate minDistanceSq

/-- `getCountryFromPoint(lat, lng, features)` from `src/utils/geo.ts`:
build the internal point `[lng, lat]`, run Pass 1 (exact containment,
returning at the first hit), and only if it found nothing run Pass 2
(nearest boundary under the threshold). -/
def getCountryFromPoint (lat lng : ℚ) (features : List GeoJSONFeature) :
    Except Unit (Option String) := do
  let point : GeoPoint := (lng, lat)
  match ← pass1Exact point features with
  | some code => .ok (some code)
  | none => pass2Fuzzy point features none ⊤

/-- JS `q.toFixed(1)` on a finite number, modelled as the pair
(sign character present, rounded value of `|q| * 10`): per the ECMAScript
algorithm, a leading `"-"` is emitted iff `q < 0`, and the digits are those of
the integer closest to `|q| * 10`, ties resolved upward. Two finite numbers
produce the same `toFixed(1)` string iff they produce the same pair (note
`-0.04` gives `"-0.0"` while `0.04` gives `"0.0"`: distinct strings and
distinct pairs). -/
def toFixed1 (q : ℚ) : Bool × ℤ := (decide (q < 0), ⌊|q| * 10 + 1 / 2⌋)

/-- The cache key `` `${lat.toFixed(1)},${lng.toFixed(1)}` ``: since the comma
separates the two fixed-point strings, the key determines and is determined by
the pair of `toFixed1` encodings. -/
def cacheKey (lat lng : ℚ) : (Bool × ℤ) × (Bool × ℤ) := (toFixed1 lat, toFixed1 lng)

abbrev CacheKey : Type := (Bool × ℤ) × (Bool × ℤ)

/-- JS `Map.prototype.get` on an insertion-ordered association list:
`none` models `undefined` (key absent). -/
def assocGet {κ ν : Type} [DecidableEq κ] : List (κ × ν) → κ → Option ν
  | [], _ => none
  | (k, v) :: rest, key => if k = key then some v else assocGet rest key

/-- JS `Map.prototype.set`: overwrite in place if the key is present,
otherwise append. -/
def assocSet {κ ν : Type} [DecidableEq κ] : List (κ × ν) → κ → ν → List (κ × ν)
  | [], key, v => [(key, v)]
  | (k, w) :: rest, key, v =>
    if k = key then (k, v) :: rest else (k, w) :: assocSet rest key v

/-- JS `Set.prototype.add`: append iff not already present. -/
def setAdd (visited : List String) (c : String) : List String :=
  if c ∈ visited then visited else visited ++ [c]

/-- The aggregation state of one `useVisitedCountries` pass. `calls` is ghost
instrumentation recording the `(lat, lng)` arguments of every
`getCountryFromPoint` invocation, so that invocation counts can be stated; it
does not influence the other fields. -/
structure AggState : Type where
  visited : List String
  activityMap : List (ℚ × String)
  coordCache : List (CacheKey × Option String)
  calls : List (ℚ × ℚ)
deriving DecidableEq

def initAggState : AggState := ⟨[], [], [], []⟩

/-- `if (countryCode) { visited.add(countryCode); activityMap.set(activity.id,
countryCode) }`: JS truthiness rejects both `null` and the empty string. -/
def recordResult (s : AggState) (id : ℚ) (countryCode : Option String) : AggState :=
  match countryCode with
  | none => s
  | some c =>
    if c = "" then s
    else { s with visited := setAdd s.visited c, activityMap := assocSet s.activityMap id c }

/-- One iteration of the `for (const activity of activities)` loop:
skip activities without a 2-element `start_latlng`; otherwise look the rounded
key up in the cache, classify (with the unrounded coordinates) only on a miss,
cache the result (including `null`), and record a truthy result. -/
def aggStep (features : List GeoJSONFeature) (s : AggState) (activity : Activity) :
    Except Unit AggState :=
  match activity.start_latlng with
  | none => .ok s
  | some [lat, lng] =>
    let key := cacheKey lat lng
    (match assocGet s.coordCache key with
     | some countryCode => .ok (recordResult s activity.id countryCode)
     | none => do
       let countryCode ← getCountryFromPoint lat lng features
       let s' : AggState :=
         { s with coordCache := assocSet s.coordCache key countryCode,
                  calls := s.calls ++ [(lat, lng)] }
       .ok (recordResult s' activity.id countryCode))
  | some _ => .ok s

/-- The activity loop of `useVisitedCountries`. -/
def aggLoop (features : List GeoJSONFeature) :
    AggState → List Activity → Except Unit AggState
  | s, [] => .ok s
  | s, activity :: rest => do
    let s' ← aggStep features s activity
    aggLoop features s' rest

/-- The `useMemo` computation of `useVisitedCountries(activities)` given the
current `geoJsonData` state: empty outputs when the boundary data has not
loaded (`!geoJsonData`) or the activity list is empty, otherwise one pass over
the activities with a fresh coordinate cache. -/
def useVisitedCountries (activities : List Activity)
    (geoJsonData : Option GeoJSONCollection) : Except Unit AggState :=
  match geoJsonData with
  | none => .ok initAggState
  | some data =>
    if activities.length = 0 then .ok initAggState
    else aggLoop data.features initAggState activities

/-- Following the spec's words: the edges of a ring treated "as a cycle by
wrapping" — the consecutive pairs of the ring with its first point appended,
so the implicit closing segment from the last point back to the first is
included. -/
def closedEdges : GeoRing → List (GeoPoint × GeoPoint)
  | [] => []
  | v0 :: rest => consecPairs ((v0 :: rest) ++ [v0])

/-- Following the spec's words: the number of ring edges (the ring treated as
a cycle) crossed by the horizontal ray from `(x, y)` to positive-x infinity,
under the rule "one endpoint's y strictly above the test y and the other not,
and the interpolated crossing x exceeds the point's x". -/
def crossingCount (x y : ℚ) (vs : GeoRing) : ℕ :=
  (closedEdges vs).countP (fun e => edgeCrosses x y e.1 e.2)

/-- Following the spec's words: a point is inside a ring iff the crossing
count of the horizontal ray is odd. -/
def ringContainsCN (point : GeoPoint) (vs : GeoRing) : Bool :=
  crossingCount point.1 point.2 vs % 2 = 1

/-- A geometry is well formed when its Polygon has at least one ring, resp.
when each constituent polygon of its MultiPolygon has at least one ring —
true of all real GeoJSON data, and exactly what rules out the
`coordinates[0] === undefined` TypeError. -/
def WFGeometry : GeoJSONGeometry → Bool
  | .polygon coordinates => !coordinates.isEmpty
  | .multiPolygon coordinates => coordinates.all (fun poly => !poly.isEmpty)

def WFFeature (f : GeoJSONFeature) : Bool :=
  match f.geometry with
  | none => true
  | some g => WFGeometry g

def WFFeatures (features : List GeoJSONFeature) : Bool :=
  features.all WFFeature

/-- Following the spec's words: a feature contains the point iff the crossing
count is odd for the outer ring of its Polygon, or of any constituent polygon
of its MultiPolygon; a feature with null geometry contains nothing. -/
def featureContainsCN (point : GeoPoint) (f : GeoJSONFeature) : Bool :=
  match f.geometry with
  | none => false
  | some (.polygon coordinates) => ringContainsCN point (coordinates.headD [])
  | some (.multiPolygon coordinates) =>
    coordinates.any (fun poly => ringContainsCN point (poly.headD []))

/-- Following the spec's words: the minimum squared point-to-segment distance
over a ring's consecutive edge segments (in degree-space); `⊤` (`Infinity`)
for degenerate rings with fewer than two points. -/
def specRingDist (point : GeoPoint) (ring : GeoRing) : WithTop ℚ :=
  ((consecPairs ring).map
    (fun vw => ((distToSegmentSquared point vw.1 vw.2 : ℚ) : WithTop ℚ))).foldr min ⊤

/-- Following the spec's words: the minimum ring distance over every outer
ring belonging to a geometry. -/
def specGeomDist (point : GeoPoint) : GeoJSONGeometry → WithTop ℚ
  | .polygon coordinates => specRingDist point (coordinates.headD [])
  | .multiPolygon coordinates =>
    (coordinates.map (fun poly => specRingDist point (poly.headD []))).foldr min ⊤

/-- Following the spec's words: a feature's minimum squared distance from the
point to any of its outer-ring edge segments; `⊤` for null geometry. -/
def specFeatureDist (point : GeoPoint) (f : GeoJSONFeature) : WithTop ℚ :=
  match f.geometry with
  | none => ⊤
  | some g => specGeomDist point g

/-- The globally smallest feature distance over the collection. -/
def minDistList (point : GeoPoint) (features : List GeoJSONFeature) : WithTop ℚ :=
  (features.map (specFeatureDist point)).foldr min ⊤

/-- Following the spec's words, the Pass-2 contract: the first feature (in
collection order) attaining the globally smallest squared distance supplies
the result, provided that smallest distance is strictly below both the
threshold and the incoming `minDistanceSq`; otherwise the incoming
`bestCandidate` stands. -/
def pass2Spec (point : GeoPoint) (features : List GeoJSONFeature)
    (bestCandidate : Option String) (minDistanceSq : WithTop ℚ) : Option String :=
  match features.find?
      (fun f => decide (specFeatureDist point f = minDistList point features)) with
  | some f =>
    if minDistList point features < thresholdSq
        ∧ minDistList point features < minDistanceSq then
      some f.properties.ISO3166_1_Alpha_2
    else bestCandidate
  | none => bestCandidate

/-- Whether an activity has a usable start coordinate (present, exactly two
components). -/
def hasUsableCoord (a : Activity) : Bool :=
  match a.start_latlng with
  | some [_, _] => true
  | _ => false

/-- The usable activities of a list, projected to `(id, lat, lng)`. -/
def usableActivities (activities : List Activity) : List (ℚ × ℚ × ℚ) :=
  activities.filterMap (fun a =>
    match a.start_latlng with
    | some [lat, lng] => some (a.id, lat, lng)
    | _ => none)

/-- The cache key of a projected activity. -/
def activityKey (u : ℚ × ℚ × ℚ) : CacheKey := cacheKey u.2.1 u.2.2

/-- First-occurrence representatives: keep each projected activity whose cache
key has not been seen before it. -/
def dedupByKeyAux (seen : List CacheKey) : List (ℚ × ℚ × ℚ) → List (ℚ × ℚ × ℚ)
  | [] => []
  | u :: rest =>
    if activityKey u ∈ seen then dedupByKeyAux seen rest
    else u :: dedupByKeyAux (activityKey u :: seen) rest

/-- The first activity of each distinct cache key, in order of first
occurrence. -/
def dedupByKey (us : List (ℚ × ℚ × ℚ)) : List (ℚ × ℚ × ℚ) :=
  dedupByKeyAux [] us

/-- The classifier invocations an aggregation pass is expected to make while
processing projected activities, given the set of cache keys already seen:
one invocation, with the unrounded coordinates, per first occurrence of a new
key. -/
def expectedCalls (seen : List CacheKey) : List (ℚ × ℚ × ℚ) → List (ℚ × ℚ)
  | [] => []
  | u :: rest =>
    if activityKey u ∈ seen then expectedCalls seen rest
    else (u.2.1, u.2.2) :: expectedCalls (activityKey u :: seen) rest

/-- Synthetic square boundary `"AA"` spanning lng/lat 0–1 (spec §8), ring in
[lng, lat] order, explicitly closed. -/
def sqAA : GeoJSONFeature :=
  ⟨⟨"AA"⟩, some (.polygon [[(0, 0), (1, 0), (1, 1), (0, 1), (0, 0)]])⟩

/-- Synthetic square boundary `"BB"` spanning lng/lat 2–3 (spec §8). -/
def sqBB : GeoJSONFeature :=
  ⟨⟨"BB"⟩, some (.polygon [[(2, 2), (3, 2), (3, 3), (2, 3), (2, 2)]])⟩

/-- A France-like boundary feature in GeoJSON [lng, lat] order whose ring
contains Paris (lng 2.3522, lat 48.8566). -/
def franceFeature : GeoJSONFeature :=
  ⟨⟨"FR"⟩, some (.polygon [[(-5, 42), (8, 42), (8, 51), (-5, 51), (-5, 42)]])⟩

theorem foldl_toggle {α : Type} (p : α → Bool) (l : List α) (b : Bool) :
    l.foldl (fun inside a => if p a then !inside else inside) b
      = (b != decide (l.countP p % 2 = 1)) := by
  induction l generalizing b with
  | nil => simp
  | cons a l ih =>
    rw [List.foldl_cons, ih, List.countP_cons]
    by_cases h : p a
    · simp only [h, if_true]
      have hd : decide ((l.countP p + 1) % 2 = 1) = !decide (l.countP p % 2 = 1) := by
        rw [← decide_not, decide_eq_decide]
        omega
      rw [hd]
      cases b <;> cases hdl : decide (l.countP p % 2 = 1) <;> rfl
    · simp [h]

/-- The edge-inclusion rule is symmetric in the two endpoints of the edge:
when the endpoints straddle the test height, the interpolated crossing x is
the same whichever endpoint plays `i`. -/
theorem edgeCrosses_symm (x y : ℚ) (a b : GeoPoint) :
    edgeCrosses x y a b = edgeCrosses x y b a := by
  unfold edgeCrosses
  by_cases h1 : a.2 > y <;> by_cases h2 : b.2 > y
  · simp [h1, h2]
  · have hne : b.2 - a.2 ≠ 0 := by
      intro hc
      exact h2 (by linarith [sub_eq_zero.mp hc])
    have hne' : a.2 - b.2 ≠ 0 := fun hc => hne (by linarith [sub_eq_zero.mp hc])
    have hkey : (b.1 - a.1) * (y - a.2) / (b.2 - a.2) + a.1
        = (a.1 - b.1) * (y - b.2) / (a.2 - b.2) + b.1 := by
      field_simp
      ring
    simp [h1, h2, hkey]
  · have hne : b.2 - a.2 ≠ 0 := by
      intro hc
      exact h1 (by linarith [sub_eq_zero.mp hc])
    have hne' : a.2 - b.2 ≠ 0 := fun hc => hne (by linarith [sub_eq_zero.mp hc])
    have hkey : (b.1 - a.1) * (y - a.2) / (b.2 - a.2) + a.1
        = (a.1 - b.1) * (y - b.2) / (a.2 - b.2) + b.1 := by
      field_simp
      ring
    simp [h1, h2, hkey]
  · simp [h1, h2]

theorem zip_dropLast_cons {α : Type} :
    ∀ (a : α) (l : List α), ((a :: l).dropLast).zip l = (a :: l).zip l
  | _, [] => rfl
  | a, b :: l => by
    have ih := zip_dropLast_cons b l
    simp only [List.dropLast_cons₂, List.zip_cons_cons] at ih ⊢
    rw [ih]

theorem consecPairs_append_singleton (w : GeoPoint) :
    ∀ (vs : GeoRing) (h : vs ≠ []),
      consecPairs (vs ++ [w]) = consecPairs vs ++ [(vs.getLast h, w)]
  | [], h => absurd rfl h
  | [a], _ => rfl
  | a :: b :: vs, _ => by
    have ih := consecPairs_append_singleton w (b :: vs) (by simp)
    simp only [consecPairs, List.cons_append, List.tail_cons, List.zip_cons_cons] at ih ⊢
    rw [ih]
    simp [List.getLast]

/-- The containment test treats the ring as a cycle: the toggle loop of
`isPointInPoly` computes exactly the parity of the crossing count over the
ring's edges including the implicit closing segment from the last point back
to the first. -/
theorem isPointInPoly_eq_parity (point : GeoPoint) (vs : GeoRing) :
    isPointInPoly point vs = ringContainsCN point vs := by
  match vs with
  | [] => rfl
  | v0 :: rest =>
    unfold isPointInPoly ringContainsCN crossingCount
    rw [foldl_toggle]
    have hne : (v0 :: rest : GeoRing) ≠ [] := by simp
    have hswap : (v0 :: rest : GeoRing).zip (prevCyclic (v0 :: rest))
        = ((prevCyclic (v0 :: rest)).zip (v0 :: rest)).map Prod.swap := by
      rw [List.zip_swap]
    rw [hswap, List.countP_map]
    have hprev : prevCyclic (v0 :: rest) = (v0 :: rest).getLast hne :: (v0 :: rest).dropLast := by
      unfold prevCyclic
      rw [List.getLast?_eq_getLast _ hne]
    have hcp : (v0 :: rest : GeoRing).zip rest = consecPairs (v0 :: rest) := by
      simp [consecPairs]
    have hclosed : closedEdges (v0 :: rest)
        = consecPairs (v0 :: rest) ++ [((v0 :: rest).getLast hne, v0)] := by
      show consecPairs ((v0 :: rest) ++ [v0]) = _
      rw [consecPairs_append_singleton v0 (v0 :: rest) hne]
    rw [hprev, List.zip_cons_cons, zip_dropLast_cons, hcp, hclosed]
    have hsym : ∀ e : GeoPoint × GeoPoint,
        ((fun vivj : GeoPoint × GeoPoint =>
            edgeCrosses point.1 point.2 vivj.1 vivj.2) ∘ Prod.swap) e
          = (fun e : GeoPoint × GeoPoint => edgeCrosses point.1 point.2 e.1 e.2) e := by
      intro e
      simp only [Function.comp_apply, Prod.fst_swap, Prod.snd_swap]
      exact edgeCrosses_symm point.1 point.2 e.2 e.1
    rw [List.countP_congr (fun e _ => by rw [hsym e])]
    rw [List.countP_cons, List.countP_append, List.countP_cons, List.countP_nil]
    have hd : ∀ n m : ℕ, n = m → (false != decide (n % 2 = 1)) = decide (m % 2 = 1) := by
      intro n m h
      subst h
      cases decide (n % 2 = 1) <;> rfl
    apply hd
    simp only [Nat.zero_add]

theorem except_bind_ok {ε α β : Type} (a : α) (f : α → Except ε β) :
    (Bind.bind (Except.ok a) f : Except ε β) = f a := rfl

theorem except_bind_error {ε α β : Type} (e : ε) (f : α → Except ε β) :
    (Bind.bind (Except.error e) f : Except ε β) = (Except.error e : Except ε β) := rfl

theorem pass1Multi_eq (point : GeoPoint) (polys : List (List GeoRing))
    (h : polys.all (fun poly => !poly.isEmpty) = true) :
    pass1Multi point polys
      = .ok (polys.any (fun poly => ringContainsCN point (poly.headD []))) := by
  induction polys with
  | nil => rfl
  | cons poly rest ih =>
    simp only [List.all_cons, Bool.and_eq_true, Bool.not_eq_true'] at h
    obtain ⟨hp, hrest⟩ := h
    match poly, hp with
    | r :: polyRest, _ =>
      simp only [pass1Multi, ringAt0, except_bind_ok, List.any_cons, List.headD_cons,
        isPointInPoly_eq_parity]
      by_cases hc : ringContainsCN point r
      · simp [hc]
      · simp only [hc, Bool.false_or, if_false]
        exact ih hrest

theorem pass1Exact_eq (point : GeoPoint) (features : List GeoJSONFeature)
    (h : WFFeatures features = true) :
    pass1Exact point features
      = .ok ((features.find? (featureContainsCN point)).map
          (fun f => f.properties.ISO3166_1_Alpha_2)) := by
  induction features with
  | nil => rfl
  | cons f rest ih =>
    simp only [WFFeatures, List.all_cons, Bool.and_eq_true] at h
    obtain ⟨hf, hrest⟩ := h
    match hg : f.geometry with
    | none =>
      simp only [pass1Exact, List.find?, featureContainsCN, hg]
      exact ih hrest
    | some (.polygon coordinates) =>
      have hne : coordinates ≠ [] := by
        simp only [WFFeature, hg, WFGeometry, Bool.not_eq_true'] at hf
        exact fun hc => by simp [hc] at hf
      match coordinates, hne with
      | r :: coordRest, _ =>
        simp only [pass1Exact, List.find?, featureContainsCN, hg, ringAt0, except_bind_ok,
          List.headD_cons, isPointInPoly_eq_parity]
        by_cases hc : ringContainsCN point r
        · simp [hc]
        · simp only [hc, if_false]
          exact ih hrest
    | some (.multiPolygon coordinates) =>
      have hwf : coordinates.all (fun poly => !poly.isEmpty) = true := by
        simpa [WFFeature, hg, WFGeometry] using hf
      simp only [pass1Exact, List.find?, featureContainsCN, hg,
        pass1Multi_eq point coordinates hwf, except_bind_ok]
      by_cases hc : coordinates.any (fun poly => ringContainsCN point (poly.headD []))
      · rw [hc]
        simp
      · simp only [hc, if_false]
        exact ih hrest

/-- The two-pass dispatch of `getCountryFromPoint`, for well-formed feature
collections: the result is the country code of the first feature (in
collection order) containing the point by the odd-crossing-count rule, and
the Pass-2 fallback runs exactly when no feature contains the point. -/
theorem getCountryFromPoint_eq (lat lng : ℚ) (features : List GeoJSONFeature)
    (h : WFFeatures features = true) :
    getCountryFromPoint lat lng features
      = match features.find? (featureContainsCN (lng, lat)) with
        | some f => .ok (some f.properties.ISO3166_1_Alpha_2)
        | none => pass2Fuzzy (lng, lat) features none ⊤ := by
  rw [getCountryFromPoint, pass1Exact_eq (lng, lat) features h, except_bind_ok]
  match features.find? (featureContainsCN (lng, lat)) with
  | some f => rfl
  | none => rfl

/-- C1: For every point and every well-formed boundary collection,
`getCountryFromPoint` performs exact containment first: iterating features in
collection order, testing the point against the outer ring of a Polygon or of
each constituent polygon of a MultiPolygon with the crossing-number rule (an
edge counts iff one endpoint's y is strictly above the test y and the other is
not, and the interpolated crossing x exceeds the point's x; inside iff the
count is odd), it returns the country code of the first feature for which any
polygon reports containment; the nearest-boundary fallback (`pass2Fuzzy`) is
consulted only when no feature contains the point. -/
theorem getCountryFromPoint_exact_first (lat lng : ℚ) (features : List GeoJSONFeature)
    (hwf : WFFeatures features = true) :
    getCountryFromPoint lat lng features
      = match features.find? (featureContainsCN (lng, lat)) with
        | some f => .ok (some f.properties.ISO3166_1_Alpha_2)
        | none => pass2Fuzzy (lng, lat) features none ⊤ :=
  getCountryFromPoint_eq lat lng features hwf

theorem getCountryFromPoint_exact_first_witness :
    WFFeatures [sqAA, sqBB] = true
    ∧ getCountryFromPoint (1/2) (1/2) [sqAA, sqBB]
        = match [sqAA, sqBB].find? (featureContainsCN (1/2, 1/2)) with
          | some f => .ok (some f.properties.ISO3166_1_Alpha_2)
          | none => pass2Fuzzy (1/2, 1/2) [sqAA, sqBB] none ⊤ :=
  ⟨by decide, getCountryFromPoint_exact_first (1/2) (1/2) [sqAA, sqBB] (by decide)⟩

theorem find?_append_of_forall_false {α : Type} (p : α → Bool) (pre post : List α) (f : α)
    (hpre : ∀ g ∈ pre, p g = false) (hf : p f = true) :
    (pre ++ f :: post).find? p = some f := by
  induction pre with
  | nil => simp [List.find?, hf]
  | cons g pre ih =>
    have hg := hpre g (by simp)
    simp only [List.cons_append, List.find?, hg]
    exact ih (fun g' hg' => hpre g' (by simp [hg']))

/-- C7: For every point inside the outer ring of some polygon of a feature
present in the collection (inside in the spec's sense: the ray-crossing count
is odd) and contained by no earlier feature, `getCountryFromPoint` returns
that feature's country code. -/
theorem getCountryFromPoint_of_contains (lat lng : ℚ) (pre post : List GeoJSONFeature)
    (f : GeoJSONFeature) (hwf : WFFeatures (pre ++ f :: post) = true)
    (hin : featureContainsCN (lng, lat) f = true)
    (hpre : ∀ g ∈ pre, featureContainsCN (lng, lat) g = false) :
    getCountryFromPoint lat lng (pre ++ f :: post)
      = .ok (some f.properties.ISO3166_1_Alpha_2) := by
  rw [getCountryFromPoint_eq lat lng _ hwf,
    find?_append_of_forall_false _ pre post f hpre hin]

theorem getCountryFromPoint_of_contains_witness :
    (WFFeatures ([sqAA] ++ sqBB :: []) = true
      ∧ featureContainsCN (5/2, 5/2) sqBB = true
      ∧ (∀ g ∈ [sqAA], featureContainsCN (5/2, 5/2) g = false))
    ∧ getCountryFromPoint (5/2) (5/2) ([sqAA] ++ sqBB :: [])
        = .ok (some sqBB.properties.ISO3166_1_Alpha_2) := by
  have hin : featureContainsCN (5/2, 5/2) sqBB = true := by
    norm_num [featureContainsCN, sqBB, ringContainsCN, crossingCount, closedEdges, consecPairs,
      edgeCrosses, List.countP_cons, List.countP_nil]
  have hpre : ∀ g ∈ [sqAA], featureContainsCN (5/2, 5/2) g = false := by
    intro g hg
    simp only [List.mem_singleton] at hg
    subst hg
    norm_num [featureContainsCN, sqAA, ringContainsCN, crossingCount, closedEdges, consecPairs,
      edgeCrosses, List.countP_cons, List.countP_nil]
  exact ⟨⟨by decide, hin, hpre⟩,
    getCountryFromPoint_of_contains (5/2) (5/2) [sqAA] [] sqBB (by decide) hin hpre⟩

theorem foldl_strict_min (l : List (WithTop ℚ)) (a : WithTop ℚ) :
    l.foldl (fun acc d => if d < acc then d else acc) a = min a (l.foldr min ⊤) := by
  induction l generalizing a with
  | nil => simp
  | cons d l ih =>
    rw [List.foldl_cons, ih, List.foldr_cons]
    rcases lt_or_ge d a with h | h
    · rw [if_pos h, eq_comm, min_eq_right]
      exact le_trans (min_le_left _ _) (le_of_lt h)
    · rw [if_neg (not_lt.mpr h), ← min_assoc, min_eq_left h]

/-- The Pass-2 ring distance is the minimum over the consecutive explicit
segments only. -/
theorem getMinDistToRingSquared_eq (point : GeoPoint) (ring : GeoRing) :
    getMinDistToRingSquared point ring = specRingDist point ring := by
  have h := foldl_strict_min
    ((consecPairs ring).map
      (fun vw => ((distToSegmentSquared point vw.1 vw.2 : ℚ) : WithTop ℚ))) ⊤
  rw [List.foldl_map] at h
  unfold getMinDistToRingSquared specRingDist
  rw [h, min_eq_right le_top]

/-- C4 (counterexample): for the unclosed square ring
`[(0,0), (10,0), (10,10), (0,10)]` and the point `(-1, 5)`, the implicit
closing segment from `(0,10)` back to `(0,0)` lies at squared distance `1`,
yet `getMinDistToRingSquared` returns `26`: the Pass-2 minimum edge-segment
distance does not take the closing segment into account. -/
theorem closing_segment_ignored_in_distance :
    (([(0, 0), (10, 0), (10, 10), (0, 10)] : GeoRing).head?
        ≠ (([(0, 0), (10, 0), (10, 10), (0, 10)] : GeoRing).getLast?))
    ∧ distToSegmentSquared ((-1 : ℚ), 5) (0, 10) (0, 0) = 1
    ∧ getMinDistToRingSquared ((-1 : ℚ), 5) [(0, 0), (10, 0), (10, 10), (0, 10)]
        = ((26 : ℚ) : WithTop ℚ)
    ∧ ¬(getMinDistToRingSquared ((-1 : ℚ), 5) [(0, 0), (10, 0), (10, 10), (0, 10)]
        ≤ ((distToSegmentSquared ((-1 : ℚ), 5) (0, 10) (0, 0) : ℚ) : WithTop ℚ)) := by
  have h1 : distToSegmentSquared ((-1 : ℚ), 5) (0, 0) (10, 0) = 26 := by
    norm_num [distToSegmentSquared]
  have h2 : distToSegmentSquared ((-1 : ℚ), 5) (10, 0) (10, 10) = 121 := by
    norm_num [distToSegmentSquared]
  have h3 : distToSegmentSquared ((-1 : ℚ), 5) (10, 10) (0, 10) = 26 := by
    norm_num [distToSegmentSquared]
  have hc : distToSegmentSquared ((-1 : ℚ), 5) (0, 10) (0, 0) = 1 := by
    norm_num [distToSegmentSquared]
  have hmin : getMinDistToRingSquared ((-1 : ℚ), 5) [(0, 0), (10, 0), (10, 10), (0, 10)]
      = ((26 : ℚ) : WithTop ℚ) := by
    simp only [getMinDistToRingSquared, consecPairs, List.zip_cons_cons, List.tail_cons,
      List.zip_nil_right, List.foldl_cons, List.foldl_nil, h1, h2, h3]
    decide
  refine ⟨by decide, hc, hmin, ?_⟩
  rw [hmin, hc]
  intro hle
  rw [WithTop.coe_le_coe] at hle
  norm_num at hle

/-- C4 (amended): for every ring — closed or not — the containment test
treats the point sequence as a cycle by wrapping (it computes the parity of
the crossing count over the ring's edges including the implicit closing
segment from the last point back to the first), while the Pass-2 minimum
edge-segment distance considers only the explicitly consecutive point pairs
and does not include the closing segment. -/
theorem ring_cycle_wrapping :
    (∀ (point : GeoPoint) (vs : GeoRing), isPointInPoly point vs = ringContainsCN point vs)
    ∧ ∀ (point : GeoPoint) (ring : GeoRing),
        getMinDistToRingSquared point ring = specRingDist point ring :=
  ⟨isPointInPoly_eq_parity, getMinDistToRingSquared_eq⟩

theorem minDistList_cons (point : GeoPoint) (f : GeoJSONFeature) (rest : List GeoJSONFeature) :
    minDistList point (f :: rest) = min (specFeatureDist point f) (minDistList point rest) := rfl

theorem foldr_min_mem : ∀ l : List (WithTop ℚ), l.foldr min ⊤ = ⊤ ∨ l.foldr min ⊤ ∈ l
  | [] => Or.inl rfl
  | x :: l => by
    rw [List.foldr_cons]
    rcases foldr_min_mem l with h | h
    · rw [h, min_eq_left le_top]
      exact Or.inr (List.mem_cons_self x l)
    · rcases le_total x (l.foldr min ⊤) with hle | hle
      · rw [min_eq_left hle]
        exact Or.inr (List.mem_cons_self x l)
      · rw [min_eq_right hle]
        exact Or.inr (List.mem_cons_of_mem x h)

theorem minDistList_find?_isSome (point : GeoPoint) (features : List GeoJSONFeature)
    (h : minDistList point features ≠ ⊤) :
    ∃ f, features.find?
      (fun f => decide (specFeatureDist point f = minDistList point features)) = some f := by
  rcases foldr_min_mem (features.map (specFeatureDist point)) with htop | hmem
  · exact absurd htop h
  · rw [List.mem_map] at hmem
    obtain ⟨f, hf, hdf⟩ := hmem
    have hsome : (features.find?
        (fun f => decide (specFeatureDist point f = minDistList point features))).isSome := by
      rw [List.find?_isSome]
      exact ⟨f, hf, by simp [minDistList, hdf]⟩
    exact Option.isSome_iff_exists.mp hsome

theorem pass2Spec_cons (point : GeoPoint) (f : GeoJSONFeature) (rest : List GeoJSONFeature)
    (best : Option String) (minD : WithTop ℚ) :
    pass2Spec point (f :: rest) best minD
      = if specFeatureDist point f < thresholdSq ∧ specFeatureDist point f < minD
        then pass2Spec point rest (some f.properties.ISO3166_1_Alpha_2) (specFeatureDist point f)
        else pass2Spec point rest best minD := by
  have hmm : minDistList point (f :: rest)
      = min (specFeatureDist point f) (minDistList point rest) := rfl
  by_cases hcond : specFeatureDist point f < thresholdSq ∧ specFeatureDist point f < minD
  · rw [if_pos hcond]
    rcases lt_or_ge (minDistList point rest) (specFeatureDist point f) with hlt | hge
    · have hm'top : minDistList point rest ≠ ⊤ := ne_top_of_lt hlt
      obtain ⟨f', hf'⟩ := minDistList_find?_isSome point rest hm'top
      have hmin : minDistList point (f :: rest) = minDistList point rest := by
        rw [hmm, min_eq_right (le_of_lt hlt)]
      have hne : ¬((fun g =>
          decide (specFeatureDist point g = minDistList point (f :: rest))) f = true) := by
        rw [hmin]
        simp [ne_of_gt hlt]
      have hfind : List.find?
          (fun g => decide (specFeatureDist point g = minDistList point (f :: rest)))
            (f :: rest)
          = List.find?
            (fun g => decide (specFeatureDist point g = minDistList point (f :: rest))) rest :=
        List.find?_cons_of_neg _ hne
      unfold pass2Spec
      rw [hfind, hmin, hf']
      have hI1 : minDistList point rest < thresholdSq ∧ minDistList point rest < minD :=
        ⟨lt_trans hlt hcond.1, lt_trans hlt hcond.2⟩
      have hI2 : minDistList point rest < thresholdSq
          ∧ minDistList point rest < specFeatureDist point f :=
        ⟨lt_trans hlt hcond.1, hlt⟩
      dsimp only
      rw [if_pos hI1, if_pos hI2]
    · have hmin : minDistList point (f :: rest) = specFeatureDist point f := by
        rw [hmm, min_eq_left hge]
      have hpf : (fun g =>
          decide (specFeatureDist point g = minDistList point (f :: rest))) f = true := by
        rw [hmin]
        simp
      have hfind : List.find?
          (fun g => decide (specFeatureDist point g = minDistList point (f :: rest)))
            (f :: rest) = some f :=
        List.find?_cons_of_pos _ hpf
      unfold pass2Spec
      rw [hfind, hmin]
      dsimp only
      rw [if_pos hcond]
      cases hre : rest.find?
          (fun g => decide (specFeatureDist point g = minDistList point rest)) with
      | none => rfl
      | some f' =>
        dsimp only
        rw [if_neg (fun hc => absurd hc.2 (not_lt.mpr hge))]
  · rw [if_neg hcond]
    rcases lt_or_ge (minDistList point rest) (specFeatureDist point f) with hlt | hge
    · have hmin : minDistList point (f :: rest) = minDistList point rest := by
        rw [hmm, min_eq_right (le_of_lt hlt)]
      have hne : ¬((fun g =>
          decide (specFeatureDist point g = minDistList point (f :: rest))) f = true) := by
        rw [hmin]
        simp [ne_of_gt hlt]
      have hfind : List.find?
          (fun g => decide (specFeatureDist point g = minDistList point (f :: rest)))
            (f :: rest)
          = List.find?
            (fun g => decide (specFeatureDist point g = minDistList point (f :: rest))) rest :=
        List.find?_cons_of_neg _ hne
      unfold pass2Spec
      rw [hfind, hmin]
    · have hmin : minDistList point (f :: rest) = specFeatureDist point f := by
        rw [hmm, min_eq_left hge]
      have hpf : (fun g =>
          decide (specFeatureDist point g = minDistList point (f :: rest))) f = true := by
        rw [hmin]
        simp
      have hfind : List.find?
          (fun g => decide (specFeatureDist point g = minDistList point (f :: rest)))
            (f :: rest) = some f :=
        List.find?_cons_of_pos _ hpf
      unfold pass2Spec
      rw [hfind, hmin]
      dsimp only
      rw [if_neg hcond]
      cases hre : rest.find?
          (fun g => decide (specFeatureDist point g = minDistList point rest)) with
      | none => rfl
      | some f' =>
        dsimp only
        rw [if_neg (fun hc => hcond ⟨lt_of_le_of_lt hge hc.1, lt_of_le_of_lt hge hc.2⟩)]

theorem pass2Multi_eq (point : GeoPoint) (polys : List (List GeoRing)) (acc : WithTop ℚ)
    (h : polys.all (fun poly => !poly.isEmpty) = true) :
    pass2Multi point polys acc
      = .ok (min acc ((polys.map (fun poly => specRingDist point (poly.headD []))).foldr min ⊤)) := by
  induction polys generalizing acc with
  | nil =>
    rw [pass2Multi, List.map_nil, List.foldr_nil, min_eq_left le_top]
  | cons poly rest ih =>
    simp only [List.all_cons, Bool.and_eq_true, Bool.not_eq_true'] at h
    obtain ⟨hp, hrest⟩ := h
    match poly, hp with
    | r :: polyRest, _ =>
      simp only [pass2Multi, ringAt0, except_bind_ok, List.map_cons, List.foldr_cons,
        List.headD_cons, getMinDistToRingSquared_eq]
      rcases lt_or_ge (specRingDist point r) acc with hlt | hge
      · rw [if_pos hlt, ih _ hrest]
        congr 1
        rw [eq_comm, min_eq_right]
        exact le_of_lt (lt_of_le_of_lt (min_le_left _ _) hlt)
      · rw [if_neg (not_lt.mpr hge), ih _ hrest]
        congr 1
        rw [← min_assoc, min_eq_left hge]

theorem featureDistSq_eq (point : GeoPoint) (g : GeoJSONGeometry) (h : WFGeometry g = true) :
    featureDistSq point g = .ok (specGeomDist point g) := by
  match g with
  | .polygon coordinates =>
    have hne : coordinates ≠ [] := by
      intro hc
      subst hc
      simp [WFGeometry] at h
    match coordinates, hne with
    | r :: crest, _ =>
      simp only [featureDistSq, ringAt0, except_bind_ok, specGeomDist, List.headD_cons]
      rw [getMinDistToRingSquared_eq]
  | .multiPolygon coordinates =>
    have hall : coordinates.all (fun poly => !poly.isEmpty) = true := by
      simpa [WFGeometry] using h
    simp only [featureDistSq, specGeomDist]
    rw [pass2Multi_eq point coordinates ⊤ hall, min_eq_right le_top]

theorem pass2Fuzzy_eq (point : GeoPoint) (features : List GeoJSONFeature)
    (best : Option String) (minD : WithTop ℚ) (hwf : WFFeatures features = true) :
    pass2Fuzzy point features best minD = .ok (pass2Spec point features best minD) := by
  induction features generalizing best minD with
  | nil => rfl
  | cons f rest ih =>
    have hwff : WFFeature f = true ∧ WFFeatures rest = true := by
      simpa [WFFeatures] using hwf
    rw [pass2Spec_cons]
    match hg : f.geometry with
    | none =>
      have hdist : specFeatureDist point f = ⊤ := by simp [specFeatureDist, hg]
      rw [hdist, if_neg (fun hc => absurd hc.1 (not_top_lt))]
      simp only [pass2Fuzzy, hg]
      exact ih _ _ hwff.2
    | some g =>
      have hWFg : WFGeometry g = true := by simpa [WFFeature, hg] using hwff.1
      have hspec : specFeatureDist point f = specGeomDist point g := by
        simp [specFeatureDist, hg]
      simp only [pass2Fuzzy, hg, featureDistSq_eq point g hWFg, except_bind_ok]
      rw [← hspec]
      by_cases hc : specFeatureDist point f < thresholdSq ∧ specFeatureDist point f < minD
      · rw [if_pos hc, if_pos hc]
        exact ih _ _ hwff.2
      · rw [if_neg hc, if_neg hc]
        exact ih _ _ hwff.2

/-- C2: When Pass 1 finds no containing feature, `getCountryFromPoint`
returns the country code of the first feature (in collection order) whose
outer-ring edge segments attain the globally smallest squared Euclidean
distance in degree-space to the point (point-to-segment distance with the
projection parameter clamped to `[0,1]`), provided that smallest squared
distance is strictly below `(0.1)²`; if every feature's minimum squared
distance is at or above the threshold it returns `none`. -/
theorem getCountryFromPoint_fallback_nearest (lat lng : ℚ) (features : List GeoJSONFeature)
    (hwf : WFFeatures features = true)
    (hnone : pass1Exact (lng, lat) features = .ok none) :
    getCountryFromPoint lat lng features
      = .ok (match features.find?
            (fun f => decide (specFeatureDist (lng, lat) f
              = minDistList (lng, lat) features)) with
          | some f =>
            if minDistList (lng, lat) features < thresholdSq
            then some f.properties.ISO3166_1_Alpha_2
            else none
          | none => none) := by
  have hthr : thresholdSq < ⊤ := by
    unfold thresholdSq
    exact WithTop.coe_lt_top _
  rw [getCountryFromPoint, hnone, except_bind_ok]
  dsimp only
  rw [pass2Fuzzy_eq (lng, lat) features none ⊤ hwf]
  unfold pass2Spec
  cases hre : features.find?
      (fun f => decide (specFeatureDist (lng, lat) f = minDistList (lng, lat) features)) with
  | none => rfl
  | some f =>
    dsimp only
    by_cases hm : minDistList (lng, lat) features < thresholdSq
    · rw [if_pos ⟨hm, lt_trans hm hthr⟩, if_pos hm]
    · rw [if_neg (fun hc => hm hc.1), if_neg hm]

theorem getCountryFromPoint_fallback_nearest_witness :
    (WFFeatures [sqAA, sqBB] = true
      ∧ pass1Exact ((1 : ℚ)/2, (21 : ℚ)/20) [sqAA, sqBB] = .ok none)
    ∧ getCountryFromPoint ((21 : ℚ)/20) ((1 : ℚ)/2) [sqAA, sqBB]
        = .ok (match [sqAA, sqBB].find?
              (fun f => decide (specFeatureDist ((1 : ℚ)/2, (21 : ℚ)/20) f
                = minDistList ((1 : ℚ)/2, (21 : ℚ)/20) [sqAA, sqBB])) with
            | some f =>
              if minDistList ((1 : ℚ)/2, (21 : ℚ)/20) [sqAA, sqBB] < thresholdSq
              then some f.properties.ISO3166_1_Alpha_2
              else none
            | none => none) := by
  have hnone : pass1Exact ((1 : ℚ)/2, (21 : ℚ)/20) [sqAA, sqBB] = .ok none := by
    norm_num [pass1Exact, sqAA, sqBB, ringAt0, isPointInPoly, prevCyclic, edgeCrosses,
      except_bind_ok]
  exact ⟨⟨by decide, hnone⟩,
    getCountryFromPoint_fallback_nearest ((21 : ℚ)/20) ((1 : ℚ)/2) [sqAA, sqBB] (by decide) hnone⟩

/-- C5 (counterexample): a Polygon feature with zero rings makes
`geometry.coordinates[0]` undefined, and `isPointInPoly(point, undefined)`
reads `.length` of undefined: `getCountryFromPoint` throws a TypeError
(modelled `.error ()`) rather than returning a value, so `classify` does not
tolerate every malformed geometry. -/
theorem classify_throws_on_ringless_polygon :
    getCountryFromPoint 0 0 [⟨⟨"XX"⟩, some (.polygon [])⟩] = .error () := rfl

/-- C5 (amended): provided every Polygon, and every constituent polygon of a
MultiPolygon, carries at least one ring (true of all GeoJSON data),
`getCountryFromPoint` never throws — it returns a value (possibly `none`) for
every point; and a degenerate ring with fewer than 2 points produces an
`Infinity` distance and no containment. -/
theorem classify_total_on_wf (lat lng : ℚ) (features : List GeoJSONFeature)
    (hwf : WFFeatures features = true) :
    (∃ r : Option String, getCountryFromPoint lat lng features = .ok r)
    ∧ ∀ point q : GeoPoint,
        getMinDistToRingSquared point ([] : GeoRing) = ⊤
        ∧ getMinDistToRingSquared point [q] = ⊤
        ∧ isPointInPoly point ([] : GeoRing) = false
        ∧ isPointInPoly point [q] = false := by
  constructor
  · rw [getCountryFromPoint_eq lat lng features hwf]
    cases hre : features.find? (featureContainsCN (lng, lat)) with
    | none =>
      rw [pass2Fuzzy_eq (lng, lat) features none ⊤ hwf]
      exact ⟨pass2Spec (lng, lat) features none ⊤, rfl⟩
    | some f => exact ⟨some f.properties.ISO3166_1_Alpha_2, rfl⟩
  · intro point q
    refine ⟨rfl, rfl, rfl, ?_⟩
    simp [isPointInPoly, prevCyclic, edgeCrosses]

theorem classify_total_on_wf_witness :
    WFFeatures [sqAA] = true
    ∧ ((∃ r : Option String, getCountryFromPoint 0 0 [sqAA] = .ok r)
       ∧ ∀ point q : GeoPoint,
           getMinDistToRingSquared point ([] : GeoRing) = ⊤
           ∧ getMinDistToRingSquared point [q] = ⊤
           ∧ isPointInPoly point ([] : GeoRing) = false
           ∧ isPointInPoly point [q] = false) :=
  ⟨by decide, classify_total_on_wf 0 0 [sqAA] (by decide)⟩

theorem aggStep_skip (features : List GeoJSONFeature) (s : AggState) (a : Activity)
    (h : hasUsableCoord a = false) : aggStep features s a = .ok s := by
  rcases a with ⟨id, sl⟩
  match sl with
  | none => rfl
  | some [] => rfl
  | some [x] => rfl
  | some [x, y] => simp [hasUsableCoord] at h
  | some (x :: y :: z :: t) => rfl

theorem usableActivities_cons_skip (a : Activity) (l : List Activity)
    (h : hasUsableCoord a = false) :
    usableActivities (a :: l) = usableActivities l := by
  rcases a with ⟨id, sl⟩
  match sl with
  | none => rfl
  | some [] => rfl
  | some [x] => rfl
  | some [x, y] => simp [hasUsableCoord] at h
  | some (x :: y :: z :: t) => rfl

theorem usableActivities_cons_usable (id lat lng : ℚ) (l : List Activity) :
    usableActivities (⟨id, some [lat, lng]⟩ :: l) = (id, lat, lng) :: usableActivities l := rfl

theorem assocGet_mem {κ ν : Type} [DecidableEq κ] (l : List (κ × ν)) (k : κ) (v : ν)
    (h : assocGet l k = some v) : (k, v) ∈ l := by
  induction l with
  | nil => simp [assocGet] at h
  | cons hd rest ih =>
    rcases hd with ⟨k', w⟩
    unfold assocGet at h
    by_cases hk : k' = k
    · rw [if_pos hk] at h
      injection h with h
      subst hk
      subst h
      exact List.mem_cons_self _ _
    · rw [if_neg hk] at h
      exact List.mem_cons_of_mem _ (ih h)

theorem mem_assocSet {κ ν : Type} [DecidableEq κ] (l : List (κ × ν)) (k : κ) (v : ν) :
    ∀ kv ∈ assocSet l k v, kv ∈ l ∨ kv = (k, v) := by
  induction l with
  | nil =>
    intro kv h
    simp [assocSet] at h
    exact Or.inr h
  | cons hd rest ih =>
    rcases hd with ⟨k', w⟩
    intro kv h
    unfold assocSet at h
    by_cases hk : k' = k
    · rw [if_pos hk] at h
      rcases List.mem_cons.mp h with h | h
      · exact Or.inr (by rw [h, hk])
      · exact Or.inl (List.mem_cons_of_mem _ h)
    · rw [if_neg hk] at h
      rcases List.mem_cons.mp h with h | h
      · exact Or.inl (h ▸ List.mem_cons_self _ _)
      · rcases ih kv h with h' | h'
        · exact Or.inl (List.mem_cons_of_mem _ h')
        · exact Or.inr h'

theorem assocGet_assocSet {κ ν : Type} [DecidableEq κ] (l : List (κ × ν)) (k k' : κ) (v : ν) :
    assocGet (assocSet l k v) k' = if k = k' then some v else assocGet l k' := by
  induction l with
  | nil =>
    by_cases h : k = k' <;> simp [assocSet, assocGet, h]
  | cons hd rest ih =>
    rcases hd with ⟨k1, w⟩
    by_cases h1 : k1 = k
    · by_cases h2 : k = k'
      · subst h1
        subst h2
        simp [assocSet, assocGet]
      · subst h1
        simp [assocSet, assocGet, h2]
    · by_cases h2 : k1 = k'
      · have hkk : k ≠ k' := fun hc => h1 (by rw [h2, hc])
        subst h2
        simp [assocSet, assocGet, h1, hkk]
      · simp [assocSet, assocGet, h1, h2, ih]

theorem assocGet_none_not_mem {κ ν : Type} [DecidableEq κ] (l : List (κ × ν)) (k : κ)
    (h : assocGet l k = none) : k ∉ l.map Prod.fst := by
  induction l with
  | nil => simp
  | cons hd rest ih =>
    rcases hd with ⟨k1, w⟩
    unfold assocGet at h
    by_cases h1 : k1 = k
    · rw [if_pos h1] at h
      exact absurd h (by simp)
    · rw [if_neg h1] at h
      simp only [List.map_cons, List.mem_cons]
      rintro (hc | hc)
      · exact h1 hc.symm
      · exact ih h hc

theorem assocGet_some_mem_keys {κ ν : Type} [DecidableEq κ] (l : List (κ × ν)) (k : κ) (v : ν)
    (h : assocGet l k = some v) : k ∈ l.map Prod.fst := by
  have := assocGet_mem l k v h
  exact List.mem_map.mpr ⟨(k, v), this, rfl⟩

theorem assocSet_fresh {κ ν : Type} [DecidableEq κ] (l : List (κ × ν)) (k : κ) (v : ν)
    (h : assocGet l k = none) : assocSet l k v = l ++ [(k, v)] := by
  induction l with
  | nil => rfl
  | cons hd rest ih =>
    rcases hd with ⟨k1, w⟩
    unfold assocGet at h
    by_cases h1 : k1 = k
    · rw [if_pos h1] at h
      exact absurd h (by simp)
    · rw [if_neg h1] at h
      unfold assocSet
      rw [if_neg h1, ih h]
      rfl

theorem mem_setAdd (l : List String) (c c' : String) :
    c' ∈ setAdd l c ↔ c' ∈ l ∨ c' = c := by
  unfold setAdd
  by_cases h : c ∈ l
  · rw [if_pos h]
    constructor
    · exact Or.inl
    · rintro (h' | rfl)
      · exact h'
      · exact h
  · rw [if_neg h]
    simp

theorem recordResult_coordCache (s : AggState) (id : ℚ) (code : Option String) :
    (recordResult s id code).coordCache = s.coordCache := by
  match code with
  | none => rfl
  | some c =>
    unfold recordResult
    by_cases hc : c = "" <;> simp [hc]

theorem recordResult_calls (s : AggState) (id : ℚ) (code : Option String) :
    (recordResult s id code).calls = s.calls := by
  match code with
  | none => rfl
  | some c =>
    unfold recordResult
    by_cases hc : c = "" <;> simp [hc]

theorem aggLoop_nil_features : ∀ (acts : List Activity) (s : AggState),
    s.visited = [] → s.activityMap = [] →
    (∀ kv ∈ s.coordCache, kv.2 = (none : Option String)) →
    ∃ s', aggLoop [] s acts = .ok s' ∧ s'.visited = [] ∧ s'.activityMap = []
  | [], s, hv, hm, hc => ⟨s, rfl, hv, hm⟩
  | a :: rest, s, hv, hm, hc => by
    rcases a with ⟨id, sl⟩
    match sl with
    | none =>
      rw [aggLoop, show aggStep [] s ⟨id, none⟩ = .ok s from rfl, except_bind_ok]
      exact aggLoop_nil_features rest s hv hm hc
    | some [] =>
      rw [aggLoop, show aggStep [] s ⟨id, some []⟩ = .ok s from rfl, except_bind_ok]
      exact aggLoop_nil_features rest s hv hm hc
    | some [x] =>
      rw [aggLoop, show aggStep [] s ⟨id, some [x]⟩ = .ok s from rfl, except_bind_ok]
      exact aggLoop_nil_features rest s hv hm hc
    | some (x :: y :: z :: t) =>
      rw [aggLoop, show aggStep [] s ⟨id, some (x :: y :: z :: t)⟩ = .ok s from rfl,
        except_bind_ok]
      exact aggLoop_nil_features rest s hv hm hc
    | some [lat, lng] =>
      rw [aggLoop]
      cases hget : assocGet s.coordCache (cacheKey lat lng) with
      | some code =>
        have hcode : code = none := hc _ (assocGet_mem _ _ _ hget)
        subst hcode
        have hstep : aggStep [] s ⟨id, some [lat, lng]⟩ = .ok s := by
          unfold aggStep
          dsimp only
          rw [hget]
          rfl
        rw [hstep, except_bind_ok]
        exact aggLoop_nil_features rest s hv hm hc
      | none =>
        have hstep : aggStep [] s ⟨id, some [lat, lng]⟩
            = .ok { s with coordCache := assocSet s.coordCache (cacheKey lat lng) none,
                           calls := s.calls ++ [(lat, lng)] } := by
          unfold aggStep
          dsimp only
          rw [hget]
          rfl
        rw [hstep, except_bind_ok]
        refine aggLoop_nil_features rest _ hv hm ?_
        intro kv hkv
        rcases mem_assocSet _ _ _ kv hkv with h' | h'
        · exact hc kv h'
        · rw [h']

/-- C8: If the boundary collection is unavailable (still loading or failed)
or the activity list is empty, the aggregation returns the empty
visited-country set and the empty activity-to-country map without error; and
for a loaded but empty boundary collection (zero features) it likewise
returns the empty set and empty map regardless of the activity list. -/
theorem aggregate_empty_inputs (activities : List Activity) (g : Option GeoJSONCollection) :
    useVisitedCountries [] g = .ok initAggState
    ∧ useVisitedCountries activities none = .ok initAggState
    ∧ ∃ s : AggState, useVisitedCountries activities (some ⟨[]⟩) = .ok s
        ∧ s.visited = [] ∧ s.activityMap = [] := by
  refine ⟨?_, rfl, ?_⟩
  · cases g with
    | none => rfl
    | some data => rfl
  · unfold useVisitedCountries
    dsimp only
    by_cases ha : activities.length = 0
    · rw [if_pos ha]
      exact ⟨initAggState, rfl, rfl, rfl⟩
    · rw [if_neg ha]
      exact aggLoop_nil_features activities initAggState rfl rfl
        (by intro kv h; simp [initAggState] at h)

theorem aggLoop_filter (features : List GeoJSONFeature) (acts : List Activity) (s : AggState) :
    aggLoop features s acts = aggLoop features s (acts.filter hasUsableCoord) := by
  induction acts generalizing s with
  | nil => rfl
  | cons a rest ih =>
    by_cases h : hasUsableCoord a
    · rw [List.filter_cons, if_pos h, aggLoop, aggLoop]
      cases hstep : aggStep features s a with
      | error e => rfl
      | ok s' =>
        rw [except_bind_ok, except_bind_ok]
        exact ih s'
    · have h' : hasUsableCoord a = false := by simpa using h
      rw [List.filter_cons, if_neg (by simp [h']), aggLoop,
        aggStep_skip features s a h', except_bind_ok]
      exact ih s

/-- C9: every activity whose start coordinate is missing or does not have
exactly two components contributes nothing to either aggregation output and
raises no error: aggregating any activity list gives exactly the same result
as aggregating only its activities with usable coordinates. -/
theorem aggregate_excludes_unusable (activities : List Activity)
    (g : Option GeoJSONCollection) :
    useVisitedCountries activities g
      = useVisitedCountries (activities.filter hasUsableCoord) g := by
  cases g with
  | none => rfl
  | some data =>
    unfold useVisitedCountries
    dsimp only
    by_cases ha : activities.length = 0
    · have hnil : activities = [] := List.length_eq_zero.mp ha
      subst hnil
      rfl
    · rw [if_neg ha]
      by_cases hf : (activities.filter hasUsableCoord).length = 0
      · rw [if_pos hf]
        have hnil : activities.filter hasUsableCoord = [] := List.length_eq_zero.mp hf
        rw [aggLoop_filter, hnil]
        rfl
      · rw [if_neg hf]
        exact aggLoop_filter data.features activities initAggState

/-- C6: the aggregator interprets `start_latlng` as `[latitude, longitude]`
and swaps the components so the classifier's internal point is
`[longitude, latitude]`, matching GeoJSON ring order: for an activity with
`start_latlng = [48.8566, 2.3522]` (Paris) and a boundary feature for France
whose ring coordinates are in `[lng, lat]` order, the aggregation assigns
that activity France's country code. -/
theorem aggregate_paris_assigns_france :
    ∃ s : AggState,
      useVisitedCountries [⟨1, some [488566/10000, 23522/10000]⟩]
          (some ⟨[franceFeature]⟩) = .ok s
      ∧ s.visited = ["FR"] ∧ s.activityMap = [(1, "FR")] := by
  have hclass : getCountryFromPoint (488566/10000) (23522/10000) [franceFeature]
      = .ok (some "FR") := by
    norm_num [getCountryFromPoint, pass1Exact, franceFeature, ringAt0, isPointInPoly,
      prevCyclic, edgeCrosses, except_bind_ok]
  have hstep : aggStep [franceFeature] initAggState ⟨1, some [488566/10000, 23522/10000]⟩
      = .ok { visited := ["FR"], activityMap := [(1, "FR")],
              coordCache := [(cacheKey (488566/10000) (23522/10000), some "FR")],
              calls := [(488566/10000, 23522/10000)] } := by
    unfold aggStep initAggState
    dsimp only
    rw [show assocGet ([] : List (CacheKey × Option String))
        (cacheKey (488566/10000) (23522/10000)) = none from rfl]
    rw [hclass, except_bind_ok]
    simp [recordResult, setAdd, assocSet]
  refine ⟨{ visited := ["FR"], activityMap := [(1, "FR")],
            coordCache := [(cacheKey (488566/10000) (23522/10000), some "FR")],
            calls := [(488566/10000, 23522/10000)] }, ?_, rfl, rfl⟩
  unfold useVisitedCountries
  dsimp only
  rw [if_neg (by simp), aggLoop, hstep, except_bind_ok, aggLoop]

theorem aggStep_visited_map (features : List GeoJSONFeature) (s : AggState) (a : Activity)
    (s' : AggState) (h : aggStep features s a = .ok s') :
    (s'.visited = s.visited ∧ s'.activityMap = s.activityMap)
    ∨ ∃ c : String, c ≠ ""
        ∧ s'.visited = setAdd s.visited c
        ∧ s'.activityMap = assocSet s.activityMap a.id c := by
  rcases a with ⟨id, sl⟩
  match sl with
  | none =>
    have h' : Except.ok (ε := Unit) s = Except.ok s' := h
    injection h' with h'
    subst h'
    exact Or.inl ⟨rfl, rfl⟩
  | some [] =>
    have h' : Except.ok (ε := Unit) s = Except.ok s' := h
    injection h' with h'
    subst h'
    exact Or.inl ⟨rfl, rfl⟩
  | some [x] =>
    have h' : Except.ok (ε := Unit) s = Except.ok s' := h
    injection h' with h'
    subst h'
    exact Or.inl ⟨rfl, rfl⟩
  | some (x :: y :: z :: t) =>
    have h' : Except.ok (ε := Unit) s = Except.ok s' := h
    injection h' with h'
    subst h'
    exact Or.inl ⟨rfl, rfl⟩
  | some [lat, lng] =>
    unfold aggStep at h
    dsimp only at h
    cases hget : assocGet s.coordCache (cacheKey lat lng) with
    | some code =>
      rw [hget] at h
      injection h with h
      subst h
      match code with
      | none => exact Or.inl ⟨rfl, rfl⟩
      | some c =>
        by_cases hc : c = ""
        · subst hc
          simp [recordResult]
        · exact Or.inr ⟨c, hc, by simp [recordResult, hc], by simp [recordResult, hc]⟩
    | none =>
      rw [hget] at h
      cases hcl : getCountryFromPoint lat lng features with
      | error e =>
        rw [hcl, except_bind_error] at h
        exact Except.noConfusion h
      | ok code =>
        rw [hcl, except_bind_ok] at h
        injection h with h
        subst h
        match code with
        | none => exact Or.inl ⟨rfl, rfl⟩
        | some c =>
          by_cases hc : c = ""
          · subst hc
            simp [recordResult]
          · exact Or.inr ⟨c, hc, by simp [recordResult, hc], by simp [recordResult, hc]⟩

theorem assocGet_none_of_keys {κ ν : Type} [DecidableEq κ] (l : List (κ × ν)) (k : κ)
    (h : ∀ p ∈ l, p.1 ≠ k) : assocGet l k = none := by
  cases hg : assocGet l k with
  | none => rfl
  | some v => exact absurd rfl (h _ (assocGet_mem l k v hg))

theorem aggLoop_visited_inv (features : List GeoJSONFeature) :
    ∀ (acts : List Activity) (s s' : AggState),
    aggLoop features s acts = .ok s' →
    (acts.map Activity.id).Nodup →
    (∀ a ∈ acts, ∀ p ∈ s.activityMap, p.1 ≠ a.id) →
    (∀ c, c ∈ s.visited ↔ ∃ p ∈ s.activityMap, p.2 = c) →
    (∀ p ∈ s.activityMap, p.2 ≠ "") →
    (∀ c, c ∈ s'.visited ↔ ∃ p ∈ s'.activityMap, p.2 = c)
      ∧ (∀ p ∈ s'.activityMap, p.2 ≠ "")
  | [], s, s', h, _, _, hiff, hne => by
    have h' : Except.ok (ε := Unit) s = Except.ok s' := h
    injection h' with h'
    subst h'
    exact ⟨hiff, hne⟩
  | a :: rest, s, s', h, hids, hdisj, hiff, hne => by
    rw [aggLoop] at h
    cases hstep : aggStep features s a with
    | error e =>
      rw [hstep, except_bind_error] at h
      exact Except.noConfusion h
    | ok s1 =>
      rw [hstep, except_bind_ok] at h
      simp only [List.map_cons, List.nodup_cons] at hids
      obtain ⟨hnotin, hidsrest⟩ := hids
      rcases aggStep_visited_map features s a s1 hstep with ⟨hv, hm⟩ | ⟨code, hcode, hv, hm⟩
      · refine aggLoop_visited_inv features rest s1 s' h hidsrest ?_ ?_ ?_
        · intro a' ha' p hp
          exact hdisj a' (List.mem_cons_of_mem _ ha') p (hm ▸ hp)
        · intro c
          rw [hv, hm]
          exact hiff c
        · intro p hp
          exact hne p (hm ▸ hp)
      · have hfresh : assocGet s.activityMap a.id = none :=
          assocGet_none_of_keys _ _ (fun p hp => hdisj a (List.mem_cons_self _ _) p hp)
        have hmap1 : s1.activityMap = s.activityMap ++ [(a.id, code)] := by
          rw [hm, assocSet_fresh _ _ _ hfresh]
        refine aggLoop_visited_inv features rest s1 s' h hidsrest ?_ ?_ ?_
        · intro a' ha' p hp
          rw [hmap1] at hp
          rcases List.mem_append.mp hp with hp | hp
          · exact hdisj a' (List.mem_cons_of_mem _ ha') p hp
          · have hpa : p = (a.id, code) := by simpa using hp
            rw [hpa]
            intro hcon
            have hcon' : a.id = a'.id := hcon
            exact hnotin (by rw [hcon']; exact List.mem_map.mpr ⟨a', ha', rfl⟩)
        · intro c'
          rw [hv, hmap1, mem_setAdd]
          constructor
          · rintro (hc' | hceq)
            · obtain ⟨p, hp, hpc⟩ := (hiff c').mp hc'
              exact ⟨p, List.mem_append.mpr (Or.inl hp), hpc⟩
            · exact ⟨(a.id, code), List.mem_append.mpr (Or.inr (by simp)), hceq.symm⟩
          · rintro ⟨p, hp, hpc⟩
            rcases List.mem_append.mp hp with hp | hp
            · exact Or.inl ((hiff c').mpr ⟨p, hp, hpc⟩)
            · have hpa : p = (a.id, code) := by simpa using hp
              exact Or.inr (by rw [← hpc, hpa])
        · intro p hp
          rw [hmap1] at hp
          rcases List.mem_append.mp hp with hp | hp
          · exact hne p hp
          · have hpa : p = (a.id, code) := by simpa using hp
            rw [hpa]
            exact hcode

/-- C10 (amended): provided the activity ids are pairwise distinct, after an
aggregation pass the visited-country set equals exactly the set of values
appearing in the activity-to-country map — a code is in the set iff at least
one activity is mapped to it — and only non-empty country codes appear in
either output. -/
theorem aggregate_visited_eq_map_values (activities : List Activity)
    (g : Option GeoJSONCollection) (s : AggState)
    (hids : (activities.map Activity.id).Nodup)
    (h : useVisitedCountries activities g = .ok s) :
    (∀ c, c ∈ s.visited ↔ ∃ p ∈ s.activityMap, p.2 = c)
    ∧ (∀ c ∈ s.visited, c ≠ "") ∧ (∀ p ∈ s.activityMap, p.2 ≠ "") := by
  have main : (∀ c, c ∈ s.visited ↔ ∃ p ∈ s.activityMap, p.2 = c)
      ∧ (∀ p ∈ s.activityMap, p.2 ≠ "") := by
    cases g with
    | none =>
      have h' : Except.ok (ε := Unit) initAggState = Except.ok s := h
      injection h' with h'
      subst h'
      simp [initAggState]
    | some data =>
      unfold useVisitedCountries at h
      dsimp only at h
      by_cases ha : activities.length = 0
      · rw [if_pos ha] at h
        injection h with h
        subst h
        simp [initAggState]
      · rw [if_neg ha] at h
        refine aggLoop_visited_inv data.features activities initAggState s h hids ?_ ?_ ?_
        · intro a ha' p hp
          simp [initAggState] at hp
        · intro c
          simp [initAggState]
        · intro p hp
          simp [initAggState] at hp
  refine ⟨main.1, ?_, main.2⟩
  intro c hc
  obtain ⟨p, hp, hpc⟩ := (main.1 c).mp hc
  rw [← hpc]
  exact main.2 p hp

theorem classify_sq_AA : getCountryFromPoint (1/2) (1/2) [sqAA, sqBB] = .ok (some "AA") := by
  norm_num [getCountryFromPoint, pass1Exact, sqAA, sqBB, ringAt0, isPointInPoly,
    prevCyclic, edgeCrosses, except_bind_ok]

theorem classify_sq_BB : getCountryFromPoint (5/2) (5/2) [sqAA, sqBB] = .ok (some "BB") := by
  norm_num [getCountryFromPoint, pass1Exact, sqAA, sqBB, ringAt0, isPointInPoly,
    prevCyclic, edgeCrosses, except_bind_ok]

theorem cacheKey_half_ne : cacheKey (1/2) (1/2) ≠ cacheKey (5/2) (5/2) := by
  norm_num [cacheKey, toFixed1, abs_of_nonneg, Int.floor_eq_iff]

/-- A concrete two-activity aggregation over the two synthetic squares: the
first activity starts inside `"AA"`, the second inside `"BB"`; the second
activity's id is a parameter so the same run serves distinct-id and
duplicate-id scenarios. -/
theorem aggRun_two_squares (id2 : ℚ) :
    useVisitedCountries [⟨1, some [1/2, 1/2]⟩, ⟨id2, some [5/2, 5/2]⟩]
        (some ⟨[sqAA, sqBB]⟩)
      = .ok ⟨["AA", "BB"],
             assocSet [((1 : ℚ), "AA")] id2 "BB",
             [(cacheKey (1/2) (1/2), some "AA"), (cacheKey (5/2) (5/2), some "BB")],
             [(1/2, 1/2), (5/2, 5/2)]⟩ := by
  have hstep1 : aggStep [sqAA, sqBB] initAggState ⟨1, some [1/2, 1/2]⟩
      = .ok ⟨["AA"], [((1 : ℚ), "AA")], [(cacheKey (1/2) (1/2), some "AA")],
             [(1/2, 1/2)]⟩ := by
    unfold aggStep initAggState
    dsimp only
    rw [show assocGet ([] : List (CacheKey × Option String)) (cacheKey (1/2) (1/2)) = none
      from rfl]
    rw [classify_sq_AA, except_bind_ok]
    simp [recordResult, setAdd, assocSet]
  have hstep2 : aggStep [sqAA, sqBB]
      ⟨["AA"], [((1 : ℚ), "AA")], [(cacheKey (1/2) (1/2), some "AA")], [(1/2, 1/2)]⟩
      ⟨id2, some [5/2, 5/2]⟩
      = .ok ⟨["AA", "BB"],
             assocSet [((1 : ℚ), "AA")] id2 "BB",
             [(cacheKey (1/2) (1/2), some "AA"), (cacheKey (5/2) (5/2), some "BB")],
             [(1/2, 1/2), (5/2, 5/2)]⟩ := by
    unfold aggStep
    dsimp only
    rw [show assocGet [(cacheKey (1/2) (1/2), some "AA")] (cacheKey (5/2) (5/2)) = none
      from by unfold assocGet; rw [if_neg cacheKey_half_ne]; rfl]
    rw [classify_sq_BB, except_bind_ok]
    simp [-one_div, recordResult, setAdd, assocSet, cacheKey_half_ne,
      show ("BB" : String) ≠ "AA" from by decide, show ("BB" : String) ≠ "" from by decide]
  unfold useVisitedCountries
  dsimp only
  rw [if_neg (by simp), aggLoop, hstep1, except_bind_ok, aggLoop, hstep2, except_bind_ok,
    aggLoop]

/-- C10 (counterexample): with two activities sharing the id `1`, the first
starting in country `"AA"` and the second in `"BB"`, the later map write
overwrites the earlier one: `"AA"` remains in the visited set but is the
value of no entry of the activity-to-country map, so the visited set does not
equal the set of the map's values. -/
theorem visited_exceeds_map_values_on_duplicate_ids :
    ∃ s : AggState,
      useVisitedCountries [⟨1, some [1/2, 1/2]⟩, ⟨1, some [5/2, 5/2]⟩]
          (some ⟨[sqAA, sqBB]⟩) = .ok s
      ∧ "AA" ∈ s.visited
      ∧ ∀ p ∈ s.activityMap, p.2 ≠ "AA" := by
  refine ⟨_, aggRun_two_squares 1, by simp, ?_⟩
  intro p hp
  rw [show assocSet [((1 : ℚ), "AA")] 1 "BB" = [((1 : ℚ), "BB")] from by simp [assocSet]] at hp
  have hpa : p = ((1 : ℚ), "BB") := by simpa using hp
  rw [hpa]
  decide

theorem aggregate_visited_eq_map_values_witness :
    (([(⟨1, some [1/2, 1/2]⟩ : Activity), ⟨2, some [5/2, 5/2]⟩].map Activity.id).Nodup)
    ∧ ∃ s : AggState,
        useVisitedCountries [⟨1, some [1/2, 1/2]⟩, ⟨2, some [5/2, 5/2]⟩]
            (some ⟨[sqAA, sqBB]⟩) = .ok s
        ∧ ((∀ c, c ∈ s.visited ↔ ∃ p ∈ s.activityMap, p.2 = c)
           ∧ (∀ c ∈ s.visited, c ≠ "") ∧ (∀ p ∈ s.activityMap, p.2 ≠ "")) := by
  have hnodup : (([(⟨1, some [1/2, 1/2]⟩ : Activity), ⟨2, some [5/2, 5/2]⟩]).map
      Activity.id).Nodup := by
    norm_num
  exact ⟨hnodup, _, aggRun_two_squares 2,
    aggregate_visited_eq_map_values _ _ _ hnodup (aggRun_two_squares 2)⟩

theorem expectedCalls_congr (seen1 seen2 : List CacheKey)
    (h : ∀ k, k ∈ seen1 ↔ k ∈ seen2) :
    ∀ us : List (ℚ × ℚ × ℚ), expectedCalls seen1 us = expectedCalls seen2 us
  | [] => rfl
  | u :: rest => by
    by_cases hm : activityKey u ∈ seen1
    · rw [expectedCalls, if_pos hm, expectedCalls, if_pos ((h _).mp hm)]
      exact expectedCalls_congr seen1 seen2 h rest
    · rw [expectedCalls, if_neg hm, expectedCalls, if_neg (fun hc => hm ((h _).mpr hc))]
      congr 1
      refine expectedCalls_congr _ _ ?_ rest
      intro k
      simp only [List.mem_cons]
      constructor
      · rintro (hk | hk)
        · exact Or.inl hk
        · exact Or.inr ((h k).mp hk)
      · rintro (hk | hk)
        · exact Or.inl hk
        · exact Or.inr ((h k).mpr hk)

theorem dedup_map_expectedCalls (us : List (ℚ × ℚ × ℚ)) : ∀ seen : List CacheKey,
    (dedupByKeyAux seen us).map (fun u => (u.2.1, u.2.2)) = expectedCalls seen us := by
  induction us with
  | nil => intro seen; rfl
  | cons u rest ih =>
    intro seen
    by_cases h : activityKey u ∈ seen
    · rw [dedupByKeyAux, if_pos h, expectedCalls, if_pos h]
      exact ih seen
    · rw [dedupByKeyAux, if_neg h, expectedCalls, if_neg h, List.map_cons]
      rw [ih (activityKey u :: seen)]

theorem aggLoop_cache (features : List GeoJSONFeature) :
    ∀ (acts : List Activity) (s0 s : AggState),
    aggLoop features s0 acts = .ok s →
    s.calls = s0.calls
        ++ expectedCalls (s0.coordCache.map Prod.fst) (usableActivities acts)
    ∧ ∀ k : CacheKey,
      (match assocGet s0.coordCache k with
       | some v => assocGet s.coordCache k = some v
       | none =>
         match (usableActivities acts).find? (fun w => decide (activityKey w = k)) with
         | some w => ∃ v, getCountryFromPoint w.2.1 w.2.2 features = .ok v
             ∧ assocGet s.coordCache k = some v
         | none => assocGet s.coordCache k = none)
  | [], s0, s, h => by
    have h' : Except.ok (ε := Unit) s0 = Except.ok s := h
    injection h' with h'
    subst h'
    refine ⟨(List.append_nil _).symm, ?_⟩
    intro k
    cases hg : assocGet s0.coordCache k with
    | some v => exact rfl
    | none => exact rfl
  | a :: rest, s0, s, h => by
    rw [aggLoop] at h
    rcases a with ⟨id, sl⟩
    match sl with
    | none =>
      rw [show aggStep features s0 ⟨id, none⟩ = .ok s0 from rfl, except_bind_ok] at h
      exact aggLoop_cache features rest s0 s h
    | some [] =>
      rw [show aggStep features s0 ⟨id, some []⟩ = .ok s0 from rfl, except_bind_ok] at h
      exact aggLoop_cache features rest s0 s h
    | some [x] =>
      rw [show aggStep features s0 ⟨id, some [x]⟩ = .ok s0 from rfl, except_bind_ok] at h
      exact aggLoop_cache features rest s0 s h
    | some (x :: y :: z :: t) =>
      rw [show aggStep features s0 ⟨id, some (x :: y :: z :: t)⟩ = .ok s0 from rfl,
        except_bind_ok] at h
      exact aggLoop_cache features rest s0 s h
    | some [lat, lng] =>
      cases hget : assocGet s0.coordCache (cacheKey lat lng) with
      | some code =>
        have hstep : aggStep features s0 ⟨id, some [lat, lng]⟩
            = .ok (recordResult s0 id code) := by
          unfold aggStep
          dsimp only
          rw [hget]
        rw [hstep, except_bind_ok] at h
        obtain ⟨ihc, ihk⟩ := aggLoop_cache features rest (recordResult s0 id code) s h
        rw [recordResult_calls, recordResult_coordCache] at ihc
        constructor
        · rw [ihc]
          congr 1
          rw [show usableActivities (⟨id, some [lat, lng]⟩ :: rest)
              = ((id : ℚ), lat, lng) :: usableActivities rest from rfl]
          rw [expectedCalls,
            if_pos (show activityKey ((id : ℚ), lat, lng) ∈ List.map Prod.fst s0.coordCache from
              assocGet_some_mem_keys _ _ _ hget)]
        · intro k
          cases hg2 : assocGet s0.coordCache k with
          | some v =>
            have ihk' := ihk k
            rw [recordResult_coordCache, hg2] at ihk'
            exact ihk'
          | none =>
            have ihk' := ihk k
            rw [recordResult_coordCache, hg2] at ihk'
            have hkne : activityKey ((id : ℚ), lat, lng) ≠ k := by
              intro hc
              rw [show activityKey ((id : ℚ), lat, lng) = cacheKey lat lng from rfl] at hc
              rw [hc] at hget
              exact Option.noConfusion (hget.symm.trans hg2)
            have hfind : (usableActivities (⟨id, some [lat, lng]⟩ :: rest)).find?
                (fun w => decide (activityKey w = k))
                = (usableActivities rest).find? (fun w => decide (activityKey w = k)) := by
              rw [show usableActivities (⟨id, some [lat, lng]⟩ :: rest)
                  = ((id : ℚ), lat, lng) :: usableActivities rest from rfl]
              exact List.find?_cons_of_neg _ (by simpa using hkne)
            rw [hfind]
            exact ihk'
      | none =>
        cases hcl : getCountryFromPoint lat lng features with
        | error e =>
          have hstep : aggStep features s0 ⟨id, some [lat, lng]⟩ = .error e := by
            unfold aggStep
            dsimp only
            rw [hget, hcl, except_bind_error]
          rw [hstep, except_bind_error] at h
          exact Except.noConfusion h
        | ok code =>
          have hstep : aggStep features s0 ⟨id, some [lat, lng]⟩
              = .ok (recordResult
                  { s0 with coordCache := assocSet s0.coordCache (cacheKey lat lng) code,
                            calls := s0.calls ++ [(lat, lng)] } id code) := by
            unfold aggStep
            dsimp only
            rw [hget, hcl, except_bind_ok]
          rw [hstep, except_bind_ok] at h
          obtain ⟨ihc, ihk⟩ := aggLoop_cache features rest _ s h
          rw [recordResult_calls, recordResult_coordCache] at ihc
          dsimp only at ihc
          have hfresh := assocSet_fresh s0.coordCache (cacheKey lat lng) code hget
          have hnotmem := assocGet_none_not_mem s0.coordCache (cacheKey lat lng) hget
          constructor
          · rw [ihc, hfresh, List.map_append,
              show List.map Prod.fst [(cacheKey lat lng, code)] = [cacheKey lat lng] from rfl,
              show usableActivities (⟨id, some [lat, lng]⟩ :: rest)
                = ((id : ℚ), lat, lng) :: usableActivities rest from rfl,
              expectedCalls,
              if_neg (show activityKey ((id : ℚ), lat, lng)
                  ∉ List.map Prod.fst s0.coordCache from hnotmem),
              show ((((id : ℚ), lat, lng).2.1 : ℚ), (((id : ℚ), lat, lng).2.2 : ℚ))
                = (lat, lng) from rfl,
              show activityKey ((id : ℚ), lat, lng) = cacheKey lat lng from rfl,
              List.append_assoc, List.singleton_append]
            congr 1
            congr 1
            refine expectedCalls_congr _ _ ?_ (usableActivities rest)
            intro k
            simp only [List.mem_append, List.mem_cons, List.mem_singleton,
              List.not_mem_nil, or_false]
            exact or_comm
          · intro k
            cases hg2 : assocGet s0.coordCache k with
            | some v =>
              have hkne : cacheKey lat lng ≠ k := by
                intro hc
                rw [hc] at hget
                exact Option.noConfusion (hget.symm.trans hg2)
              have ihk' := ihk k
              rw [recordResult_coordCache] at ihk'
              dsimp only at ihk'
              rw [assocGet_assocSet, if_neg hkne, hg2] at ihk'
              exact ihk'
            | none =>
              by_cases hk0 : cacheKey lat lng = k
              · have ihk' := ihk k
                rw [recordResult_coordCache] at ihk'
                dsimp only at ihk'
                rw [assocGet_assocSet, if_pos hk0] at ihk'
                have hfind : (usableActivities (⟨id, some [lat, lng]⟩ :: rest)).find?
                    (fun w => decide (activityKey w = k)) = some ((id : ℚ), lat, lng) := by
                  rw [show usableActivities (⟨id, some [lat, lng]⟩ :: rest)
                      = ((id : ℚ), lat, lng) :: usableActivities rest from rfl]
                  exact List.find?_cons_of_pos _ (by simp [activityKey, hk0])
                rw [hfind]
                exact ⟨code, hcl, ihk'⟩
              · have ihk' := ihk k
                rw [recordResult_coordCache] at ihk'
                dsimp only at ihk'
                rw [assocGet_assocSet, if_neg hk0, hg2] at ihk'
                have hfind : (usableActivities (⟨id, some [lat, lng]⟩ :: rest)).find?
                    (fun w => decide (activityKey w = k))
                    = (usableActivities rest).find? (fun w => decide (activityKey w = k)) := by
                  rw [show usableActivities (⟨id, some [lat, lng]⟩ :: rest)
                      = ((id : ℚ), lat, lng) :: usableActivities rest from rfl]
                  exact List.find?_cons_of_neg _ (by simpa using hk0)
                rw [hfind]
                exact ihk'

/-- C3: in one aggregation pass, the classifier is invoked exactly once per
distinct 1-decimal-degree cache key occurring among the usable activities —
with the unrounded original coordinates of the first activity carrying that
key (the ghost `calls` log equals the first-occurrence representatives) —
and the cache maps every usable activity's key to the classification result
(a `null` result included) of that first activity, which is therefore the
stored result shared by every activity whose coordinates round to the same
key. -/
theorem aggregate_cache_once (activities : List Activity) (data : GeoJSONCollection)
    (s : AggState) (h : useVisitedCountries activities (some data) = .ok s) :
    s.calls = (dedupByKey (usableActivities activities)).map (fun u => (u.2.1, u.2.2))
    ∧ ∀ u ∈ usableActivities activities,
        ∃ w v, (usableActivities activities).find?
            (fun w => decide (activityKey w = activityKey u)) = some w
          ∧ getCountryFromPoint w.2.1 w.2.2 data.features = .ok v
          ∧ assocGet s.coordCache (activityKey u) = some v := by
  unfold useVisitedCountries at h
  dsimp only at h
  by_cases ha : activities.length = 0
  · rw [if_pos ha] at h
    injection h with h
    subst h
    have hnil : activities = [] := List.length_eq_zero.mp ha
    subst hnil
    exact ⟨rfl, by intro u hu; simp [usableActivities] at hu⟩
  · rw [if_neg ha] at h
    obtain ⟨hcalls, hcache⟩ := aggLoop_cache data.features activities initAggState s h
    constructor
    · rw [hcalls]
      rw [show initAggState.calls = [] from rfl, List.nil_append,
        show initAggState.coordCache.map Prod.fst = [] from rfl]
      rw [dedupByKey]
      exact (dedup_map_expectedCalls (usableActivities activities) []).symm
    · intro u hu
      have h1 := hcache (activityKey u)
      have hsome : ∃ w, (usableActivities activities).find?
          (fun w => decide (activityKey w = activityKey u)) = some w :=
        Option.isSome_iff_exists.mp (List.find?_isSome.mpr ⟨u, hu, by simp⟩)
      obtain ⟨w, hw⟩ := hsome
      rw [show assocGet initAggState.coordCache (activityKey u)
          = (none : Option (Option String)) from rfl, hw] at h1
      obtain ⟨v, hv1, hv2⟩ := h1
      exact ⟨w, v, hw, hv1, hv2⟩

theorem aggregate_cache_once_witness :
    ∃ s : AggState,
      useVisitedCountries [⟨1, some [1/2, 1/2]⟩, ⟨2, some [5/2, 5/2]⟩]
          (some ⟨[sqAA, sqBB]⟩) = .ok s
      ∧ (s.calls = (dedupByKey (usableActivities
            [⟨1, some [1/2, 1/2]⟩, ⟨2, some [5/2, 5/2]⟩])).map (fun u => (u.2.1, u.2.2))
         ∧ ∀ u ∈ usableActivities [⟨1, some [1/2, 1/2]⟩, ⟨2, some [5/2, 5/2]⟩],
             ∃ w v, (usableActivities [⟨1, some [1/2, 1/2]⟩, ⟨2, some [5/2, 5/2]⟩]).find?
                 (fun w => decide (activityKey w = activityKey u)) = some w
               ∧ getCountryFromPoint w.2.1 w.2.2 [sqAA, sqBB] = .ok v
               ∧ assocGet s.coordCache (activityKey u) = some v) :=
  ⟨_, aggRun_two_squares 2, aggregate_cache_once _ ⟨[sqAA, sqBB]⟩ _ (aggRun_two_squares 2)⟩
